import Mathlib

/-!
Verification of the hybrid static/dynamic shape descriptor ("extents")
of this repository against its specification.

The embedding follows `libcxx/include/__mdspan/extents.h` (the constructor
and accessor loops, the `static_array_impl` / `index_sequence_scan_impl`
recursions, the `maybe_static_array` storage) together with the
near-duplicate header variants of the same abstraction present in the
repository (which add the `_LIBCPP_ASSERT` diagnostics and a rank guard in
`operator==`).  C++ machine integers are modelled as mathematical `Int`
with explicit wrap-around at every `static_cast`; a checked-build
precondition failure (process abort with a diagnostic) is modelled by
`Except.error` carrying the literal diagnostic string.
-/

namespace Mdspan

/-- The dynamic sentinel `std::dynamic_extent = numeric_limits<size_t>::max()`
for a 64-bit `size_t`. -/
def dynamic_extent : Nat := 2 ^ 64 - 1

/-- Model of a C++ integer index type: signedness plus bit width.
`index_type` must be a signed or unsigned integer type (never `bool`). -/
structure IndexType where
  signed : Bool
  bits : Nat
  bits_pos : 0 < bits

/-- Smallest representable value of the index type. -/
def IndexType.minVal (t : IndexType) : Int :=
  if t.signed then -(2 ^ (t.bits - 1)) else 0

/-- Largest representable value of the index type. -/
def IndexType.maxVal (t : IndexType) : Int :=
  if t.signed then 2 ^ (t.bits - 1) - 1 else 2 ^ t.bits - 1

/-- Representability of a mathematical integer in the index type. -/
def IndexType.InRange (t : IndexType) (v : Int) : Prop :=
  t.minVal ≤ v ∧ v ≤ t.maxVal

instance (t : IndexType) (v : Int) : Decidable (t.InRange v) := by
  unfold IndexType.InRange; infer_instance

/-- `static_cast` to the index type: two's-complement wrap-around for signed
destinations, reduction modulo `2 ^ bits` for unsigned destinations. -/
def IndexType.castI (t : IndexType) (v : Int) : Int :=
  if t.signed then (v + 2 ^ (t.bits - 1)) % 2 ^ t.bits - 2 ^ (t.bits - 1)
  else v % 2 ^ t.bits

/-- The index type `int` (32-bit signed), used for concrete instances. -/
def i32 : IndexType := ⟨true, 32, by decide⟩

/-- Embeds `static_array_impl<R, T, Extents...>::value(r)` (recursive static
lookup).  The single-value specialisation returns its value for every `r`, so
an out-of-range `r` yields the last tag; the empty specialisation returns
`T()`, i.e. `0`. -/
def static_array_value : List Nat → Nat → Nat
  | [], _ => 0
  | [v], _ => v
  | v :: v1 :: rest, r => if r = 0 then v else static_array_value (v1 :: rest) (r - 1)

/-- Embeds `index_sequence_scan_impl<R, Values...>::get(r)`: the first
argument is the position index `R` carried by the template recursion.  Note
the single-value specialisation returns `R > r ? FirstVal : 0`, exactly as in
the source. -/
def index_sequence_scan_impl : Nat → List Nat → Nat → Nat
  | _, [], _ => 0
  | k, [v], r => if k > r then v else 0
  | k, v :: v1 :: rest, r =>
    if r > k then v + index_sequence_scan_impl (k + 1) (v1 :: rest) r else 0

/-- The argument pack `size_t(Values == dyn_tag)...` of `dyn_map_t`. -/
def dynMapList (tags : List Nat) : List Nat :=
  tags.map (fun v => if v == dynamic_extent then 1 else 0)

/-- Embeds `dyn_map_t::get(r)` of `maybe_static_array`, i.e.
`index_sequence_scan_impl<0, size_t(Values == dyn_tag)...>::get(r)`. -/
def dyn_map_get (tags : List Nat) (r : Nat) : Nat :=
  index_sequence_scan_impl 0 (dynMapList tags) r

/-- Specification-side count: the number of positions strictly before `r`
whose tag equals the dynamic sentinel. -/
def countDynBefore (tags : List Nat) (r : Nat) : Nat :=
  (tags.take r).countP (fun v => v == dynamic_extent)

/-- Embeds `m_size_dynamic = ((Values == dyn_tag) + ... + 0)`. -/
def tagsCountDyn (tags : List Nat) : Nat :=
  tags.countP (fun v => v == dynamic_extent)

/-- Embeds `maybe_static_array::value(r)`: a static tag is cast to the
dynamic value type, a dynamic tag reads the compact dynamic storage at
`dyn_map_t::get(r)`.  Reading `possibly_empty_array` is modelled by
`List.getD _ 0` (`possibly_empty_array<T, 0>::operator[]` returns `T()`). -/
def maybe_static_array_value (idx : IndexType) (tags : List Nat)
    (dynVals : List Int) (r : Nat) : Int :=
  if static_array_value tags r = dynamic_extent then
    dynVals.getD (dyn_map_get tags r) 0
  else idx.castI (Int.ofNat (static_array_value tags r))

/-- The shape descriptor `extents<IndexType, Extents...>`: index type, tag
sequence (`size_t` template arguments), and the contents of the compact
dynamic storage `m_dyn_vals`. -/
structure Extents where
  idx : IndexType
  tags : List Nat
  dynVals : List Int

/-- Embeds `extents::rank()`. -/
def Extents.rank (e : Extents) : Nat := e.tags.length

/-- Embeds `extents::rank_dynamic()`. -/
def Extents.rank_dynamic (e : Extents) : Nat := tagsCountDyn e.tags

/-- Embeds `extents::static_extent(r) { return vals_t::static_value(r); }`. -/
def Extents.static_extent (e : Extents) (r : Nat) : Nat :=
  static_array_value e.tags r

/-- Embeds `extents::extent(r) { return m_vals.value(r); }`. -/
def Extents.extent (e : Extents) (r : Nat) : Int :=
  maybe_static_array_value e.idx e.tags e.dynVals r

/-- Embeds the loop shared by the rank-length (full form) constructors of
`maybe_static_array` and by the converting constructor of `extents`:
`for r in [0, m_size)`, when the tag at `r` is dynamic, write the value for
dimension `r` (converted to the index type by the assignment) into the
dynamic storage at `dyn_map_t::get(r)`.  `fuel` counts the remaining loop
iterations. -/
def fill_dyn_aux (idx : IndexType) (tags : List Nat) (f : Nat → Int) :
    Nat → Nat → List Int → List Int
  | 0, _, acc => acc
  | fuel + 1, r, acc =>
    if r < tags.length then
      fill_dyn_aux idx tags f fuel (r + 1)
        (if static_array_value tags r = dynamic_extent then
          acc.set (dyn_map_get tags r) (idx.castI (f r))
        else acc)
    else acc

/-- Runs the full-form loop over all dimensions.  The dynamic storage starts
as an arbitrary buffer of the right length (the source leaves it
default-initialised); every dynamic slot is overwritten by the loop, so the
all-zero start stands in for the indeterminate contents. -/
def fill_dyn (idx : IndexType) (tags : List Nat) (f : Nat → Int) : List Int :=
  fill_dyn_aux idx tags f tags.length 0 (List.replicate (tagsCountDyn tags) 0)

/-- Embeds the rank-dynamic ("dynamic values only") constructor
`maybe_static_array(DynVals... vals) : m_dyn_vals{static_cast<TDynamic>(vals)...}`
as invoked by `extents(OtherIndexTypes... dynvals)`, which first casts every
argument to `index_type` (the two casts through the same type collapse to
one).  For `m_size_dynamic == 0` the matching overload ignores its arguments
and the storage is empty. -/
def extentsFromDyn (idx : IndexType) (tags : List Nat) (vals : List Int) : Extents :=
  ⟨idx, tags, vals.map idx.castI⟩

/-- Embeds the full-form ("all values") constructor of `maybe_static_array`
(the scalar, array and span overloads share the same loop) with the debug
assertion compiled out, as invoked through `extents`: the dimension-`r` value
is `static_cast<index_type>(vals[r])`, and the loop writes the dynamic
positions. -/
def extentsFromAll (idx : IndexType) (tags : List Nat) (vals : List Int) : Extents :=
  ⟨idx, tags, fill_dyn idx tags (fun r => idx.castI (vals.getD r 0))⟩

/-- Embeds overload resolution among the `maybe_static_array` value
constructors for a scalar pack of length `rank` or `rank_dynamic`: with no
dynamic dimension the `requires(m_size_dynamic == 0)` overload ignores the
values; with exactly `rank_dynamic` values the dynamic-only overload stores
them in order; otherwise the full-form overload runs its loop. -/
def extentsCtorScalars (idx : IndexType) (tags : List Nat) (vals : List Int) : Extents :=
  if tagsCountDyn tags = 0 then ⟨idx, tags, []⟩
  else if vals.length = tagsCountDyn tags then extentsFromDyn idx tags vals
  else extentsFromAll idx tags vals

/-- Embeds the checked-build full-form constructor (the header variant with
`_LIBCPP_ASSERT`): the same loop as `fill_dyn_aux`, but a static dimension
whose supplied value differs from its tag (both compared after the cast to
the index type, as in `__values[__r] == static_cast<_TDynamic>(__static_val)`)
aborts with the literal diagnostic, modelled as `Except.error`. -/
def from_all_checked_aux (idx : IndexType) (tags : List Nat) (vals : List Int) :
    Nat → Nat → List Int → Except String (List Int)
  | 0, _, acc => .ok acc
  | fuel + 1, r, acc =>
    if r < tags.length then
      if static_array_value tags r = dynamic_extent then
        from_all_checked_aux idx tags vals fuel (r + 1)
          (acc.set (dyn_map_get tags r) (idx.castI (vals.getD r 0)))
      else if idx.castI (vals.getD r 0) = idx.castI (Int.ofNat (static_array_value tags r)) then
        from_all_checked_aux idx tags vals fuel (r + 1) acc
      else .error "extents construction: mismatch of provided arguments with static extents."
    else .ok acc

/-- Checked-build full-form construction over all dimensions (the
constructors selected when `m_size_dynamic > 0` and the value count differs
from `m_size_dynamic`). -/
def extents_from_all_checked (idx : IndexType) (tags : List Nat)
    (vals : List Int) : Except String (List Int) :=
  from_all_checked_aux idx tags vals tags.length 0
    (List.replicate (tagsCountDyn tags) 0)

/-- Embeds overload resolution for checked-build scalar construction: the
`requires(m_size_dynamic == 0)` overload ignores its values and contains no
check; the dynamic-only overload stores without validation; the full-form
overload runs the checked loop. -/
def extents_ctor_scalars_checked (idx : IndexType) (tags : List Nat)
    (vals : List Int) : Except String (List Int) :=
  if tagsCountDyn tags = 0 then .ok []
  else if vals.length = tagsCountDyn tags then .ok (vals.map idx.castI)
  else extents_from_all_checked idx tags vals

/-- Embeds the converting constructor
`extents(const extents<OtherIndexType, OtherExtents...>& other)`: for every
dimension whose destination tag is dynamic, `vals[dyn_map_t::get(r)] =
other.extent(r)` (the assignment into the `index_type` buffer performs the
cast); the buffer then becomes the dynamic storage.  Destination static
dimensions store nothing.  When `rank_dynamic == 0` the loop body is skipped
and the storage is empty: both cases are `fill_dyn` over an empty or
rank-dynamic-sized buffer. -/
def extentsConvert (idx : IndexType) (tags : List Nat) (other : Extents) : Extents :=
  ⟨idx, tags, fill_dyn idx tags other.extent⟩

/-- The converting constructor contains no assertion in any header variant
of the repository, so its checked-build run is the same total computation;
there is no failure path. -/
def extentsConvertChecked (idx : IndexType) (tags : List Nat) (other : Extents) :
    Except String Extents :=
  .ok (extentsConvert idx tags other)

/-- Embeds `extents() = default`: `maybe_static_array() = default` leaves the
member `possibly_empty_array` (a raw `T vals[N]` with no initialiser)
default-initialised, i.e. with indeterminate contents, modelled by an
arbitrary list `indet` of the right length supplied by the environment. -/
def extentsDefault (idx : IndexType) (tags : List Nat) (indet : List Int) : Extents :=
  ⟨idx, tags, indet⟩

/-- Modelled from the spec: the default constructor initialises every
dynamic dimension to the index type's zero value (`dynamic-extents{}` in the
header's own synopsis comment); this zero-initialisation is absent from the
code under src. -/
def extentsDefaultSpec (idx : IndexType) (tags : List Nat) : Extents :=
  ⟨idx, tags, List.replicate (tagsCountDyn tags) 0⟩

/-- Embeds the cited `operator==`: `bool value = true; for (r < m_rank)
value &= ext.extent(r) == ext2.extent(r); return value;` where `m_rank` is
the LEFT operand's rank and no rank guard is performed.  The integer
comparison of the two extent values is modelled as equality in `Int`. -/
def extentsEq (e1 e2 : Extents) : Bool :=
  (List.range e1.rank).all fun r => decide (e1.extent r = e2.extent r)

/-- Embeds the later header variants' `operator==`:
`if constexpr (rank() != sizeof...(OtherExtents)) value = false; else`
compare `static_cast<index_type>(rhs.extent(r)) == lhs.extent(r)` for every
dimension of the (equal) rank. -/
def extentsEqV2 (e1 e2 : Extents) : Bool :=
  if e1.rank ≠ e2.rank then false
  else (List.range e1.rank).all fun r => decide (e1.idx.castI (e2.extent r) = e1.extent r)

/-- Modelled from the spec: the checked-build bounds assertion of
`extent(r)` — `r` must be in `[0, rank)`, otherwise the call aborts with
"extents access: index must be less than rank".  Only the unchecked accessor
(which this delegates to) and the assertion's test are under src. -/
def extent_checked (e : Extents) (r : Nat) : Except String Int :=
  if r < e.rank then .ok (e.extent r)
  else .error "extents access: index must be less than rank"

/-- Modelled from the spec: the checked-build bounds assertion of
`static_extent(r)`, same bound and diagnostic as `extent_checked`. -/
def static_extent_checked (e : Extents) (r : Nat) : Except String Nat :=
  if r < e.rank then .ok (e.static_extent r)
  else .error "extents access: index must be less than rank"

/-- Descriptor A of the spec's concrete cases: tags `(dynamic, 7)`, index
type `int`, runtime extents `(5, 7)`. -/
def exA : Extents := ⟨i32, [dynamic_extent, 7], [5]⟩

/-- Source descriptor of the spec's concrete case for C8: both dimensions
dynamic, runtime extents `(4, 7)`. -/
def srcC : Extents := ⟨i32, [dynamic_extent, dynamic_extent], [4, 7]⟩

/-- A rank-0 descriptor `std::extents<int>`. -/
def eRank0 : Extents := ⟨i32, [], []⟩

/-- A rank-1 fully static descriptor `std::extents<int, 5>`. -/
def eRank1 : Extents := ⟨i32, [5], []⟩

/-! ### Helper lemmas about the cast -/

theorem IndexType.castI_inRange (t : IndexType) (v : Int) : t.InRange (t.castI v) := by
  obtain ⟨s, bits, hpos⟩ := t
  have hsplit : bits - 1 + 1 = bits := by omega
  have hhalf : (2 : Int) ^ bits = 2 ^ (bits - 1) * 2 := by
    conv_lhs => rw [← hsplit]
    rw [pow_succ]
  have hb : (0 : Int) < 2 ^ bits := by positivity
  unfold IndexType.castI IndexType.InRange IndexType.minVal IndexType.maxVal
  cases s
  · simp only [Bool.false_eq_true, if_false]
    have h1 : (0 : Int) ≤ v % 2 ^ bits := Int.emod_nonneg _ (by positivity)
    have h2 : v % 2 ^ bits < 2 ^ bits := Int.emod_lt_of_pos _ hb
    constructor <;> omega
  · simp only [if_true]
    have h1 : (0 : Int) ≤ (v + 2 ^ (bits - 1)) % 2 ^ bits :=
      Int.emod_nonneg _ (by positivity)
    have h2 : (v + 2 ^ (bits - 1)) % 2 ^ bits < 2 ^ bits :=
      Int.emod_lt_of_pos _ hb
    constructor <;> omega

theorem IndexType.castI_eq_self (t : IndexType) (v : Int) (h : t.InRange v) :
    t.castI v = v := by
  obtain ⟨s, bits, hpos⟩ := t
  have hsplit : bits - 1 + 1 = bits := by omega
  have hhalf : (2 : Int) ^ bits = 2 ^ (bits - 1) * 2 := by
    conv_lhs => rw [← hsplit]
    rw [pow_succ]
  unfold IndexType.castI
  unfold IndexType.InRange IndexType.minVal IndexType.maxVal at h
  cases s
  · simp only [Bool.false_eq_true, if_false] at h ⊢
    exact Int.emod_eq_of_lt (by omega) (by omega)
  · simp only [if_true] at h ⊢
    have : (v + 2 ^ (bits - 1)) % 2 ^ bits = v + 2 ^ (bits - 1) :=
      Int.emod_eq_of_lt (by omega) (by omega)
    omega

theorem IndexType.castI_idem (t : IndexType) (v : Int) :
    t.castI (t.castI v) = t.castI v :=
  t.castI_eq_self _ (t.castI_inRange v)

/-! ### Helper lemmas about the static lookup and the slot scan -/

theorem static_array_value_eq_getD :
    ∀ (tags : List Nat) (r : Nat), r < tags.length →
      static_array_value tags r = tags.getD r 0 := by
  intro tags
  induction tags with
  | nil => intro r hr; simp at hr
  | cons v t ih =>
    intro r hr
    cases t with
    | nil =>
      simp only [List.length_cons, List.length_nil] at hr
      interval_cases r
      simp [static_array_value]
    | cons v1 rest =>
      cases r with
      | zero => simp [static_array_value]
      | succ r =>
        simp only [static_array_value, Nat.succ_ne_zero, if_false, Nat.add_sub_cancel]
        rw [ih r (by simpa using hr)]
        simp [List.getD]

theorem index_sequence_scan_impl_char :
    ∀ (l : List Nat) (k r : Nat), k ≤ r →
      index_sequence_scan_impl k l r = ((l.take (min (r - k) (l.length - 1))).sum) := by
  intro l
  induction l with
  | nil => intro k r _; simp [index_sequence_scan_impl]
  | cons v t ih =>
    intro k r hkr
    cases t with
    | nil =>
      simp only [index_sequence_scan_impl, List.length_cons, List.length_nil]
      rw [if_neg (by omega)]
      simp
    | cons v1 rest =>
      by_cases hrk : r > k
      · simp only [index_sequence_scan_impl, if_pos hrk]
        rw [ih (k + 1) r (by omega)]
        have hmin : min (r - k) ((v :: v1 :: rest).length - 1) =
            min (r - (k + 1)) ((v1 :: rest).length - 1) + 1 := by
          simp only [List.length_cons]; omega
        rw [hmin]
        simp [List.take_succ_cons]
      · have hrk2 : r = k := by omega
        simp only [index_sequence_scan_impl, if_neg hrk, hrk2]
        simp

theorem sum_take_dynMapList :
    ∀ (tags : List Nat) (m : Nat),
      ((dynMapList tags).take m).sum = countDynBefore tags m := by
  intro tags
  induction tags with
  | nil => intro m; simp [dynMapList, countDynBefore]
  | cons v t ih =>
    intro m
    cases m with
    | zero => simp [dynMapList, countDynBefore]
    | succ m =>
      simp only [dynMapList, countDynBefore, List.map_cons, List.take_succ_cons,
        List.sum_cons, List.countP_cons]
      rw [show ((List.map (fun v => if v == dynamic_extent then 1 else 0) t).take m).sum
            = countDynBefore t m from ih m]
      unfold countDynBefore
      by_cases hv : v == dynamic_extent
      · simp [hv]; omega
      · simp [hv]

theorem dyn_map_get_eq (tags : List Nat) (r : Nat) :
    dyn_map_get tags r = countDynBefore tags (min r (tags.length - 1)) := by
  unfold dyn_map_get
  rw [index_sequence_scan_impl_char _ 0 r (Nat.zero_le r)]
  have hlen : (dynMapList tags).length = tags.length := by simp [dynMapList]
  rw [hlen, Nat.sub_zero, sum_take_dynMapList]

theorem dyn_map_get_lt (tags : List Nat) (r : Nat) (hr : r < tags.length) :
    dyn_map_get tags r = countDynBefore tags r := by
  rw [dyn_map_get_eq]
  congr 1
  omega

theorem countDynBefore_succ (tags : List Nat) (r : Nat) (hr : r < tags.length) :
    countDynBefore tags (r + 1) =
      countDynBefore tags r + (if tags.getD r 0 == dynamic_extent then 1 else 0) := by
  unfold countDynBefore
  rw [List.take_succ, List.countP_append]
  rw [List.getElem?_eq_getElem hr]
  simp only [Option.toList_some, List.countP_singleton]
  rw [List.getD_eq_getElem?_getD, List.getElem?_eq_getElem hr]
  rfl

theorem countDynBefore_le_succ (tags : List Nat) (r : Nat) :
    countDynBefore tags r ≤ countDynBefore tags (r + 1) := by
  by_cases hr : r < tags.length
  · rw [countDynBefore_succ tags r hr]; omega
  · unfold countDynBefore
    rw [List.take_of_length_le (by omega), List.take_of_length_le (by omega)]

theorem countDynBefore_mono (tags : List Nat) {a b : Nat} (h : a ≤ b) :
    countDynBefore tags a ≤ countDynBefore tags b := by
  induction b, h using Nat.le_induction with
  | base => exact le_rfl
  | succ b _ ih => exact le_trans ih (countDynBefore_le_succ tags b)

theorem countDynBefore_length (tags : List Nat) :
    countDynBefore tags tags.length = tagsCountDyn tags := by
  unfold countDynBefore tagsCountDyn
  rw [List.take_length]

theorem countDynBefore_lt_total (tags : List Nat) (r : Nat) (hr : r < tags.length)
    (hd : static_array_value tags r = dynamic_extent) :
    countDynBefore tags r < tagsCountDyn tags := by
  have hgd : tags.getD r 0 = dynamic_extent := by
    rw [← static_array_value_eq_getD tags r hr]; exact hd
  have h1 : countDynBefore tags (r + 1) = countDynBefore tags r + 1 := by
    rw [countDynBefore_succ tags r hr, hgd]
    simp
  have h2 : countDynBefore tags (r + 1) ≤ countDynBefore tags tags.length :=
    countDynBefore_mono tags (by omega)
  rw [countDynBefore_length] at h2
  omega

/-! ### Helper lemmas about list access -/

theorem getD_set_ne (l : List Int) (i j : Nat) (a : Int) (h : i ≠ j) :
    (l.set i a).getD j 0 = l.getD j 0 := by
  rw [List.getD_eq_getElem?_getD, List.getD_eq_getElem?_getD, List.getElem?_set_ne h]

theorem getD_set_self (l : List Int) (i : Nat) (a : Int) (h : i < l.length) :
    (l.set i a).getD i 0 = a := by
  rw [List.getD_eq_getElem?_getD, List.getElem?_set_self h]
  rfl

theorem getD_map_castI (t : IndexType) (l : List Int) (i : Nat) (h : i < l.length) :
    (l.map t.castI).getD i 0 = t.castI (l.getD i 0) := by
  rw [List.getD_eq_getElem?_getD, List.getElem?_map, List.getElem?_eq_getElem h]
  rw [List.getD_eq_getElem?_getD, List.getElem?_eq_getElem h]
  rfl

theorem getD_range_map (f : Nat → Int) (n r : Nat) (h : r < n) :
    ((List.range n).map f).getD r 0 = f r := by
  rw [List.getD_eq_getElem?_getD, List.getElem?_map, List.getElem?_range h]
  rfl

theorem getD_mem (l : List Int) (i : Nat) (h : i < l.length) : l.getD i 0 ∈ l := by
  rw [List.getD_eq_getElem?_getD, List.getElem?_eq_getElem h]
  exact List.getElem_mem h

/-! ### Lemmas about the full-form constructor loop -/

theorem fill_dyn_aux_length (idx : IndexType) (tags : List Nat) (f : Nat → Int) :
    ∀ (fuel r : Nat) (acc : List Int),
      (fill_dyn_aux idx tags f fuel r acc).length = acc.length := by
  intro fuel
  induction fuel with
  | zero => intro r acc; rfl
  | succ fuel ih =>
    intro r acc
    unfold fill_dyn_aux
    by_cases hr : r < tags.length
    · rw [if_pos hr, ih]
      by_cases hd : static_array_value tags r = dynamic_extent
      · rw [if_pos hd, List.length_set]
      · rw [if_neg hd]
    · rw [if_neg hr]

theorem fill_dyn_aux_preserve (idx : IndexType) (tags : List Nat) (f : Nat → Int) :
    ∀ (fuel r : Nat) (acc : List Int) (s : Nat), s < countDynBefore tags r →
      (fill_dyn_aux idx tags f fuel r acc).getD s 0 = acc.getD s 0 := by
  intro fuel
  induction fuel with
  | zero => intro r acc s _; rfl
  | succ fuel ih =>
    intro r acc s hs
    unfold fill_dyn_aux
    by_cases hr : r < tags.length
    · rw [if_pos hr]
      have hs1 : s < countDynBefore tags (r + 1) :=
        lt_of_lt_of_le hs (countDynBefore_le_succ tags r)
      rw [ih (r + 1) _ s hs1]
      by_cases hd : static_array_value tags r = dynamic_extent
      · rw [if_pos hd, getD_set_ne]
        rw [dyn_map_get_lt tags r hr]
        omega
      · rw [if_neg hd]
    · rw [if_neg hr]

theorem fill_dyn_aux_main (idx : IndexType) (tags : List Nat) (f : Nat → Int) :
    ∀ (fuel r : Nat) (acc : List Int) (j : Nat),
      tags.length ≤ r + fuel → r ≤ j → j < tags.length →
      static_array_value tags j = dynamic_extent →
      acc.length = tagsCountDyn tags →
      (fill_dyn_aux idx tags f fuel r acc).getD (countDynBefore tags j) 0 =
        idx.castI (f j) := by
  intro fuel
  induction fuel with
  | zero => intro r acc j hfuel hrj hj _ _; omega
  | succ fuel ih =>
    intro r acc j hfuel hrj hj hdyn hacc
    have hr : r < tags.length := by omega
    unfold fill_dyn_aux
    rw [if_pos hr]
    by_cases hrj2 : r = j
    · subst hrj2
      rw [if_pos hdyn]
      have hslot : dyn_map_get tags r = countDynBefore tags r := dyn_map_get_lt tags r hr
      have hlt : countDynBefore tags r < tagsCountDyn tags :=
        countDynBefore_lt_total tags r hr hdyn
      have hgd : tags.getD r 0 = dynamic_extent := by
        rw [← static_array_value_eq_getD tags r hr]; exact hdyn
      have hsucc : countDynBefore tags (r + 1) = countDynBefore tags r + 1 := by
        rw [countDynBefore_succ tags r hr, hgd]; simp
      rw [fill_dyn_aux_preserve idx tags f fuel (r + 1) _ _ (by omega)]
      rw [hslot, getD_set_self _ _ _ (by omega)]
    · have hrj3 : r + 1 ≤ j := by omega
      by_cases hd : static_array_value tags r = dynamic_extent
      · rw [if_pos hd]
        exact ih (r + 1) _ j (by omega) hrj3 hj hdyn (by rw [List.length_set]; exact hacc)
      · rw [if_neg hd]
        exact ih (r + 1) _ j (by omega) hrj3 hj hdyn hacc

theorem fill_dyn_length (idx : IndexType) (tags : List Nat) (f : Nat → Int) :
    (fill_dyn idx tags f).length = tagsCountDyn tags := by
  unfold fill_dyn
  rw [fill_dyn_aux_length, List.length_replicate]

theorem maybe_static_array_value_fill (idx : IndexType) (tags : List Nat) (f : Nat → Int)
    (r : Nat) (hr : r < tags.length) (hdyn : static_array_value tags r = dynamic_extent) :
    maybe_static_array_value idx tags (fill_dyn idx tags f) r = idx.castI (f r) := by
  unfold maybe_static_array_value
  rw [if_pos hdyn, dyn_map_get_lt tags r hr]
  unfold fill_dyn
  exact fill_dyn_aux_main idx tags f tags.length 0 _ r (by omega) (by omega) hr hdyn
    (List.length_replicate _ _)

/-! ### Lemmas about the checked full-form constructor -/

theorem from_all_checked_aux_ok (idx : IndexType) (tags : List Nat) (vals : List Int) :
    ∀ (fuel r : Nat) (acc : List Int),
      (∀ j, r ≤ j → j < tags.length → static_array_value tags j ≠ dynamic_extent →
        idx.castI (vals.getD j 0) = idx.castI (Int.ofNat (static_array_value tags j))) →
      from_all_checked_aux idx tags vals fuel r acc =
        .ok (fill_dyn_aux idx tags (fun j => vals.getD j 0) fuel r acc) := by
  intro fuel
  induction fuel with
  | zero => intro r acc _; rfl
  | succ fuel ih =>
    intro r acc hok
    unfold from_all_checked_aux fill_dyn_aux
    by_cases hr : r < tags.length
    · rw [if_pos hr, if_pos hr]
      by_cases hd : static_array_value tags r = dynamic_extent
      · rw [if_pos hd, if_pos hd]
        exact ih (r + 1) _ (fun j h1 h2 h3 => hok j (by omega) h2 h3)
      · rw [if_neg hd, if_neg hd]
        rw [if_pos (hok r (by omega) hr hd)]
        exact ih (r + 1) _ (fun j h1 h2 h3 => hok j (by omega) h2 h3)
    · rw [if_neg hr, if_neg hr]

theorem from_all_checked_aux_error (idx : IndexType) (tags : List Nat) (vals : List Int) :
    ∀ (fuel r : Nat) (acc : List Int),
      (∃ j, r ≤ j ∧ j < tags.length ∧ j < r + fuel ∧
        static_array_value tags j ≠ dynamic_extent ∧
        idx.castI (vals.getD j 0) ≠ idx.castI (Int.ofNat (static_array_value tags j))) →
      from_all_checked_aux idx tags vals fuel r acc =
        .error "extents construction: mismatch of provided arguments with static extents." := by
  intro fuel
  induction fuel with
  | zero => intro r acc h; obtain ⟨j, h1, _, h3, _⟩ := h; omega
  | succ fuel ih =>
    intro r acc h
    obtain ⟨j, h1, h2, h3, h4, h5⟩ := h
    have hr : r < tags.length := by omega
    unfold from_all_checked_aux
    rw [if_pos hr]
    by_cases hd : static_array_value tags r = dynamic_extent
    · rw [if_pos hd]
      have hrj : r ≠ j := fun he => h4 (he ▸ hd)
      exact ih (r + 1) _ ⟨j, by omega, h2, by omega, h4, h5⟩
    · rw [if_neg hd]
      by_cases heq : idx.castI (vals.getD r 0) = idx.castI (Int.ofNat (static_array_value tags r))
      · rw [if_pos heq]
        have hrj : r ≠ j := fun he => h5 (he ▸ heq)
        exact ih (r + 1) _ ⟨j, by omega, h2, by omega, h4, h5⟩
      · rw [if_neg heq]

/-! ### Characterisation of the cited equality operator -/

theorem extentsEq_true_iff (e1 e2 : Extents) :
    extentsEq e1 e2 = true ↔ ∀ r < e1.rank, e1.extent r = e2.extent r := by
  unfold extentsEq
  rw [List.all_eq_true]
  constructor
  · intro h r hr
    have := h r (List.mem_range.mpr hr)
    exact of_decide_eq_true this
  · intro h r hr
    exact decide_eq_true (h r (List.mem_range.mp hr))

/-- A dimension of a descriptor with no dynamic tag is never the sentinel. -/
theorem no_dyn_of_countDyn_zero (tags : List Nat) (h0 : tagsCountDyn tags = 0)
    (r : Nat) (hr : r < tags.length) :
    static_array_value tags r ≠ dynamic_extent := by
  rw [static_array_value_eq_getD tags r hr]
  have hmem : tags.getD r 0 ∈ tags := by
    rw [List.getD_eq_getElem?_getD, List.getElem?_eq_getElem hr]
    exact List.getElem_mem hr
  intro hcon
  have := List.countP_eq_zero.mp h0 _ hmem
  rw [hcon] at this
  simp at this

/-- With every tag dynamic, the slot of dimension `r < rank` is `r` itself. -/
theorem countDynBefore_all_dyn (tags : List Nat)
    (h : ∀ a ∈ tags, (a == dynamic_extent) = true) (r : Nat) (hr : r ≤ tags.length) :
    countDynBefore tags r = r := by
  unfold countDynBefore
  rw [List.countP_eq_length.mpr (fun a ha => h a (List.mem_of_mem_take ha))]
  rw [List.length_take]
  omega

/-- A dynamic dimension's extent is one of the stored dynamic values. -/
theorem extent_mem_dynVals (e : Extents) (hlen : e.dynVals.length = e.rank_dynamic)
    (r : Nat) (hr : r < e.rank) (hdyn : static_array_value e.tags r = dynamic_extent) :
    e.extent r ∈ e.dynVals := by
  unfold Extents.extent maybe_static_array_value
  rw [if_pos hdyn, dyn_map_get_lt e.tags r hr]
  exact getD_mem _ _ (by
    rw [hlen]
    exact countDynBefore_lt_total e.tags r hr hdyn)

/-! ### Claim theorems -/

/-- C1: for every descriptor D and every dimension r in [0, rank(D)), if
`static_extent(r)` is not the dynamic sentinel then `extent(r)` equals
`static_extent(r)` cast to the index type.  The theorem quantifies over an
arbitrary storage state (`e.dynVals` is unconstrained), so the equality holds
for the whole lifetime of the instance, whichever constructor built it. -/
theorem static_extent_invariant (e : Extents) (r : Nat) (hr : r < e.rank)
    (hs : e.static_extent r ≠ dynamic_extent) :
    e.extent r = e.idx.castI (Int.ofNat (e.static_extent r)) := by
  unfold Extents.static_extent at hs ⊢
  unfold Extents.extent maybe_static_array_value
  rw [if_neg hs]

/-- Witness for C1 at descriptor A (tags `(dynamic, 7)`), dimension 1. -/
theorem static_extent_invariant_witness :
    exA.extent 1 = i32.castI (Int.ofNat (exA.static_extent 1)) :=
  static_extent_invariant exA 1 (by decide) (by decide)

/-- C3 (evaluation at the failing input): the cited `operator==` compares a
rank-0 descriptor equal to a rank-1 descriptor — it loops only over the left
operand's rank and performs no rank guard — while the claim requires rank
mismatch to force inequality.  The later header variants' `operator==`
(`extentsEqV2`, with the `if constexpr` rank guard) returns false here, as the
claim states. -/
theorem eq_ignores_rank_mismatch_eval :
    extentsEq eRank0 eRank1 = true ∧ eRank0.rank ≠ eRank1.rank ∧
      extentsEqV2 eRank0 eRank1 = false := by decide

/-- C5 (evaluation at the failing input): `extents() = default` leaves the
dynamic storage with its default-initialised (indeterminate) contents — the
member array has no initialiser in any header variant — so a rank-1 dynamic
descriptor's `extent(0)` is whatever the indeterminate buffer holds (here 7),
not the index type's zero value required by the claim and produced by the
spec-modelled default constructor. -/
theorem default_ctor_indeterminate_eval :
    (extentsDefault i32 [dynamic_extent] [7]).extent 0 = 7 ∧
    (extentsDefaultSpec i32 [dynamic_extent]).extent 0 = 0 := by decide

/-- C7: `extent(r)` and `static_extent(r)` require `r` in [0, rank); outside
that range the checked build signals the IndexOutOfRange failure with the
literal diagnostic "extents access: index must be less than rank", and inside
it they return the storage value and the tag respectively.  The bounds
assertion is modelled from the spec (only its test is under src); the
accessors it guards are embedded from the source. -/
theorem extent_access_bounds (e : Extents) (r : Nat) :
    (e.rank ≤ r →
      extent_checked e r = .error "extents access: index must be less than rank" ∧
      static_extent_checked e r = .error "extents access: index must be less than rank") ∧
    (r < e.rank →
      extent_checked e r = .ok (maybe_static_array_value e.idx e.tags e.dynVals r) ∧
      static_extent_checked e r = .ok (static_array_value e.tags r)) := by
  constructor
  · intro h
    unfold extent_checked static_extent_checked
    rw [if_neg (by omega), if_neg (by omega)]
    exact ⟨rfl, rfl⟩
  · intro h
    unfold extent_checked static_extent_checked
    rw [if_pos h, if_pos h]
    exact ⟨rfl, rfl⟩

/-- Witness for C7: `extent(2)` and `static_extent(2)` on the rank-2
descriptor A abort with the literal diagnostic. -/
theorem extent_access_bounds_witness :
    extent_checked exA 2 = .error "extents access: index must be less than rank" ∧
    static_extent_checked exA 2 = .error "extents access: index must be less than rank" :=
  (extent_access_bounds exA 2).1 (by decide)

/-- C8 (counterexample): constructing descriptor C with tags `(5, dynamic)`
from a source with extents `(4, 7)` does NOT trigger any precondition
failure: the converting constructor of every header variant copies only the
dynamic destination dimensions and contains no assertion, so the checked
build still produces a descriptor, with `extent(0) = 5` (the static tag; the
source's 4 is never consulted) and `extent(1) = 7`. -/
theorem convert_no_validation_eval :
    extentsConvertChecked i32 [5, dynamic_extent] srcC =
      .ok (extentsConvert i32 [5, dynamic_extent] srcC) ∧
    (extentsConvert i32 [5, dynamic_extent] srcC).extent 0 = 5 ∧
    (extentsConvert i32 [5, dynamic_extent] srcC).extent 1 = 7 ∧
    srcC.extent 0 = 4 :=
  ⟨rfl, by decide, by decide, by decide⟩

/-- C8 (amended): for every index type and every rank-2 source, constructing
a descriptor with tags `(5, dynamic)` succeeds without any failure path; the
static dimension comes from its tag and the dynamic dimension copies the
source's extent, converted to the destination index type. -/
theorem convert_static_dest_succeeds (idx : IndexType) (other : Extents) :
    extentsConvertChecked idx [5, dynamic_extent] other =
      .ok (extentsConvert idx [5, dynamic_extent] other) ∧
    (extentsConvert idx [5, dynamic_extent] other).extent 0 = idx.castI 5 ∧
    (extentsConvert idx [5, dynamic_extent] other).extent 1 = idx.castI (other.extent 1) := by
  refine ⟨rfl, ?_, ?_⟩
  · show maybe_static_array_value idx [5, dynamic_extent] _ 0 = idx.castI 5
    unfold maybe_static_array_value
    rw [if_neg (by decide)]
    rfl
  · show maybe_static_array_value idx [5, dynamic_extent]
      (fill_dyn idx [5, dynamic_extent] other.extent) 1 = idx.castI (other.extent 1)
    exact maybe_static_array_value_fill idx [5, dynamic_extent] other.extent 1
      (by decide) (by decide)

/-- C9: the rank-dynamic constructor form assigns its values, in order, to
the dynamic dimensions left to right, with no validation: `extent(r)` is the
`countDynBefore(r)`-th supplied value at dynamic dimensions and the tag at
static ones. -/
theorem from_dyn_assigns_in_order (idx : IndexType) (tags : List Nat) (vals : List Int)
    (hlen : vals.length = tagsCountDyn tags) (r : Nat) (hr : r < tags.length) :
    (extentsFromDyn idx tags vals).extent r =
      if static_array_value tags r = dynamic_extent then
        idx.castI (vals.getD (countDynBefore tags r) 0)
      else idx.castI (Int.ofNat (static_array_value tags r)) := by
  show maybe_static_array_value idx tags (vals.map idx.castI) r = _
  unfold maybe_static_array_value
  by_cases hd : static_array_value tags r = dynamic_extent
  · rw [if_pos hd, if_pos hd, dyn_map_get_lt tags r hr]
    exact getD_map_castI idx vals _ (by
      rw [hlen]
      exact countDynBefore_lt_total tags r hr hd)
  · rw [if_neg hd, if_neg hd]

/-- Witness for C9: the spec's concrete case — tags `(1, dynamic, 3, dynamic)`
constructed from the two values `(3, 4)` yields extents `(1, 3, 3, 4)`. -/
theorem from_dyn_assigns_in_order_witness :
    (extentsFromDyn i32 [1, dynamic_extent, 3, dynamic_extent] [3, 4]).extent 0 = 1 ∧
    (extentsFromDyn i32 [1, dynamic_extent, 3, dynamic_extent] [3, 4]).extent 1 = 3 ∧
    (extentsFromDyn i32 [1, dynamic_extent, 3, dynamic_extent] [3, 4]).extent 2 = 3 ∧
    (extentsFromDyn i32 [1, dynamic_extent, 3, dynamic_extent] [3, 4]).extent 3 = 4 :=
  ⟨(from_dyn_assigns_in_order i32 [1, dynamic_extent, 3, dynamic_extent] [3, 4]
      (by decide) 0 (by decide)).trans (by decide),
   (from_dyn_assigns_in_order i32 [1, dynamic_extent, 3, dynamic_extent] [3, 4]
      (by decide) 1 (by decide)).trans (by decide),
   (from_dyn_assigns_in_order i32 [1, dynamic_extent, 3, dynamic_extent] [3, 4]
      (by decide) 2 (by decide)).trans (by decide),
   (from_dyn_assigns_in_order i32 [1, dynamic_extent, 3, dynamic_extent] [3, 4]
      (by decide) 3 (by decide)).trans (by decide)⟩

/-- C10 (amended): for every tag sequence, `slot(r) = dyn_map_get tags r`
equals the number of dynamic positions strictly before `min(r, rank - 1)`.
In particular the claimed formula holds for every r in [0, rank), but
`slot(rank)` misses the last position (the scan's single-value base case
tests `R > r`), so it equals rank-dynamic only when the last tag is not
dynamic (or the rank is 0). -/
theorem dyn_slot_characterization (tags : List Nat) (r : Nat) :
    dyn_map_get tags r = countDynBefore tags (min r (tags.length - 1)) :=
  dyn_map_get_eq tags r

/-- C10 (counterexample): for the tag sequence `(dynamic)` the claim demands
`slot(1) = 1 = rank-dynamic`, but the scan yields 0. -/
theorem dyn_slot_rank_counterexample :
    dyn_map_get [dynamic_extent] 1 ≠ countDynBefore [dynamic_extent] 1 ∧
    countDynBefore [dynamic_extent] 1 = tagsCountDyn [dynamic_extent] := by decide

/-- C2: constructing a new descriptor of the same type from D's own full
extent list (the rank-length sequence `extent(0), ..., extent(rank-1)`)
yields a descriptor that compares equal to D.  The hypotheses state that D's
dynamic storage has its constructor-established shape: `rank_dynamic` values,
each representable in the index type. -/
theorem roundtrip_eq (e : Extents)
    (hlen : e.dynVals.length = e.rank_dynamic)
    (hin : ∀ v ∈ e.dynVals, e.idx.InRange v) :
    extentsEq (extentsCtorScalars e.idx e.tags ((List.range e.rank).map e.extent)) e = true := by
  unfold extentsCtorScalars
  by_cases h0 : tagsCountDyn e.tags = 0
  · rw [if_pos h0, extentsEq_true_iff]
    intro r hr
    have hr2 : r < e.tags.length := hr
    have hst := no_dyn_of_countDyn_zero e.tags h0 r hr2
    show maybe_static_array_value e.idx e.tags [] r = e.extent r
    unfold Extents.extent maybe_static_array_value
    rw [if_neg hst, if_neg hst]
  · rw [if_neg h0]
    have hvals : ((List.range e.rank).map e.extent).length = e.rank := by
      rw [List.length_map, List.length_range]
    by_cases hfull : ((List.range e.rank).map e.extent).length = tagsCountDyn e.tags
    · rw [if_pos hfull, extentsEq_true_iff]
      intro r hr
      have hr2 : r < e.tags.length := hr
      have halldyn : ∀ a ∈ e.tags, (a == dynamic_extent) = true := by
        apply List.countP_eq_length.mp
        rw [hvals] at hfull
        exact hfull.symm
      have hdyn : static_array_value e.tags r = dynamic_extent := by
        rw [static_array_value_eq_getD e.tags r hr2]
        have hmem : e.tags.getD r 0 ∈ e.tags := by
          rw [List.getD_eq_getElem?_getD, List.getElem?_eq_getElem hr2]
          exact List.getElem_mem hr2
        simpa using halldyn _ hmem
      show maybe_static_array_value e.idx e.tags
        (((List.range e.rank).map e.extent).map e.idx.castI) r = e.extent r
      unfold maybe_static_array_value
      rw [if_pos hdyn, dyn_map_get_lt e.tags r hr2,
        countDynBefore_all_dyn e.tags halldyn r (by omega)]
      rw [getD_map_castI _ _ _ (by rw [hvals]; exact hr2)]
      rw [getD_range_map e.extent e.rank r hr2]
      exact e.idx.castI_eq_self _ (hin _ (extent_mem_dynVals e hlen r hr2 hdyn))
    · rw [if_neg hfull, extentsEq_true_iff]
      intro r hr
      have hr2 : r < e.tags.length := hr
      show maybe_static_array_value e.idx e.tags
        (fill_dyn e.idx e.tags
          (fun j => e.idx.castI (((List.range e.rank).map e.extent).getD j 0))) r = e.extent r
      by_cases hdyn : static_array_value e.tags r = dynamic_extent
      · rw [maybe_static_array_value_fill e.idx e.tags _ r hr2 hdyn]
        rw [e.idx.castI_idem, getD_range_map e.extent e.rank r hr2]
        exact e.idx.castI_eq_self _ (hin _ (extent_mem_dynVals e hlen r hr2 hdyn))
      · unfold Extents.extent maybe_static_array_value
        rw [if_neg hdyn, if_neg hdyn]

/-- Witness for C2 at descriptor A (tags `(dynamic, 7)`, extents `(5, 7)`). -/
theorem roundtrip_eq_witness :
    extentsEq (extentsCtorScalars exA.idx exA.tags ((List.range exA.rank).map exA.extent))
      exA = true :=
  roundtrip_eq exA (by decide) (by decide)

/-- C4: in a converting construction legal at the type level (equal ranks, no
two conflicting static tags), every dimension whose destination tag is
dynamic receives the source's extent at that dimension converted to the
destination index type; in particular the spec's concrete case holds:
constructing B with tags `(5, 7)` from descriptor A (tags `(dynamic, 7)`,
extents `(5, 7)`) succeeds with `B.extent(0) = 5` and `B.extent(1) = 7`. -/
theorem convert_copies_dynamic (idx : IndexType) (tags : List Nat) (other : Extents)
    (hrank : tags.length = other.rank)
    (hcompat : ∀ i < tags.length,
      other.tags.getD i 0 = dynamic_extent ∨ tags.getD i 0 = dynamic_extent ∨
        other.tags.getD i 0 = tags.getD i 0)
    (r : Nat) (hr : r < tags.length)
    (hdyn : static_array_value tags r = dynamic_extent) :
    (extentsConvert idx tags other).extent r = idx.castI (other.extent r) ∧
    ((extentsConvert i32 [5, 7] exA).extent 0 = 5 ∧
      (extentsConvert i32 [5, 7] exA).extent 1 = 7) := by
  refine ⟨?_, by decide, by decide⟩
  show maybe_static_array_value idx tags (fill_dyn idx tags other.extent) r = _
  exact maybe_static_array_value_fill idx tags other.extent r hr hdyn

/-- Witness for C4: converting descriptor A into a descriptor with tags
`(dynamic, 7)` copies A's dynamic extent at dimension 0. -/
theorem convert_copies_dynamic_witness :
    (extentsConvert i32 [dynamic_extent, 7] exA).extent 0 = i32.castI (exA.extent 0) :=
  (convert_copies_dynamic i32 [dynamic_extent, 7] exA (by decide) (by decide) 0
    (by decide) (by decide)).1

/-- C6 (counterexample): for a fully static descriptor, full-form checked
construction performs NO mismatch check — overload resolution selects the
`requires(m_size_dynamic == 0)` constructor, which ignores its arguments (the
source marks it "TODO: add precondition check?") — so supplying 3 for the
static tag 5 succeeds without the claimed StaticExtentMismatch failure and
yields `extent(0) = 5`. -/
theorem full_form_all_static_no_check_eval :
    extents_ctor_scalars_checked i32 [5] [3] = .ok [] ∧
    (extentsCtorScalars i32 [5] [3]).extent 0 = 5 :=
  ⟨rfl, by decide⟩

/-- C6 (amended): under a checked build, the cited full-form constructors —
those requiring at least one dynamic dimension — signal the literal
StaticExtentMismatch diagnostic whenever some supplied value differs (as an
index-type value) from its static tag, and otherwise succeed, storing the
dynamic values at their compact slots. -/
theorem full_form_checked_mismatch (idx : IndexType) (tags : List Nat) (vals : List Int)
    (hlen : vals.length = tags.length) (hdynpos : 0 < tagsCountDyn tags) :
    ((∃ j, j < tags.length ∧ static_array_value tags j ≠ dynamic_extent ∧
        idx.castI (vals.getD j 0) ≠ idx.castI (Int.ofNat (static_array_value tags j))) →
      extents_from_all_checked idx tags vals =
        .error "extents construction: mismatch of provided arguments with static extents.") ∧
    ((∀ j, j < tags.length → static_array_value tags j ≠ dynamic_extent →
        idx.castI (vals.getD j 0) = idx.castI (Int.ofNat (static_array_value tags j))) →
      extents_from_all_checked idx tags vals =
        .ok (fill_dyn idx tags (fun j => vals.getD j 0)) ∧
      ∀ r, r < tags.length → static_array_value tags r = dynamic_extent →
        (fill_dyn idx tags (fun j => vals.getD j 0)).getD (countDynBefore tags r) 0 =
          idx.castI (vals.getD r 0)) := by
  constructor
  · intro h
    obtain ⟨j, h1, h2, h3⟩ := h
    exact from_all_checked_aux_error idx tags vals tags.length 0 _
      ⟨j, by omega, h1, by omega, h2, h3⟩
  · intro hok
    refine ⟨from_all_checked_aux_ok idx tags vals tags.length 0 _
      (fun j _ h2 h3 => hok j h2 h3), ?_⟩
    intro r hr hdyn
    exact fill_dyn_aux_main idx tags (fun j => vals.getD j 0) tags.length 0 _ r
      (by omega) (by omega) hr hdyn (List.length_replicate _ _)

/-- Witness for C6 (amended), mirroring the repository's own assertion test:
`extents<int, dynamic, 5>` built from `(1000, 3)` aborts with the literal
diagnostic. -/
theorem full_form_checked_mismatch_witness :
    extents_from_all_checked i32 [dynamic_extent, 5] [1000, 3] =
      .error "extents construction: mismatch of provided arguments with static extents." :=
  (full_form_checked_mismatch i32 [dynamic_extent, 5] [1000, 3] (by decide) (by decide)).1
    ⟨1, by decide, by decide, by decide⟩

end Mdspan
